import Mathlib

/-!
Shallow embedding of the incremental crawl engine of the pyskeb repository
(src/test/prepare): the realbooru crawler (rb/index.py), the 3dbooru crawler
(bh/index.py), the skeb crawler (skb/newest.py) and the mihuashi crawler
(mhs/newest.py).  Python sets are modelled as `Finset`, Python dicts keyed by
insertion order as association lists, exceptions as explicit result types,
and the wall-clock budget as a boolean oracle indexed by the iteration number.
-/

/-! ## DedupIndex loading (rb/index.py lines 45-48, skb/newest.py lines 56-60)

The persisted form is either absent (`none`, `hf_fs.exists` returned false) or
present; a present file is handed to `json.loads`, which either returns a list
of identifiers or raises `JSONDecodeError`.  The raise is modelled by the
`Except.error` constructor of the argument; the caller has no try/except, so
a parse failure propagates out of the crawl function. -/

/-- Outcome of the DedupIndex loading step at run start. -/
inductive LoadOutcome where
  | ok (ids : Finset ℕ)
  | raised
  deriving DecidableEq

/-- Embedding of rb/index.py lines 45-48: `exist_ids = set(json.loads(...))`
when the persisted file exists, `set()` when it does not.  There is no
exception handler around `json.loads`, so a malformed persisted form raises. -/
def rb_load_exist_ids (persisted : Option (Except Unit (List ℕ))) : LoadOutcome :=
  match persisted with
  | none => LoadOutcome.ok ∅
  | some (Except.ok l) => LoadOutcome.ok l.toFinset
  | some (Except.error _) => LoadOutcome.raised

/-! ## Tag saturation checks (rb/index.py `_check_tags`, bh/index.py lines 111-122)

The Python comparison `current_tag_count > all_tag_count * 0.99` is modelled
over ℚ; at the small integer inputs used below the binary floating-point
computation of the source and the rational computation agree, because
`all_tag_count * 0.99` differs from the rational product by far less than the
distance to the nearest integer. -/

/-- Embedding of `_check_tags` in rb/index.py lines 110-123: returns `true`
when the tag is still sampled (page requests are issued against it) and
`false` when it has reached the safe limit and is skipped. -/
def rb_check_tags (current_tag_count all_tag_count : ℕ) : Bool :=
  if (current_tag_count : ℚ) > (all_tag_count : ℚ) * (99 / 100) ∨ 195000 ≤ current_tag_count
  then false
  else true

/-- Embedding of the in-loop saturation test of bh/index.py lines 113-122:
returns `true` when the tag has reached the safe limit (it is removed from the
pool and no page request is issued against it). -/
def bh_tag_reached_safe_limit (current_tag_count all_tag_count : ℕ) : Bool :=
  if (current_tag_count : ℚ) > (all_tag_count : ℚ) * (95 / 100) ∨ 95000 ≤ current_tag_count
  then true
  else false

/-! ## The realbooru crawl loop (rb/index.py lines 163-222) -/

/-- An item as yielded by the realbooru page sources.  The raw whitespace-
separated tag string of the source is carried as its token list `tags`
(the `re.split` tokenization itself is string plumbing outside the claims). -/
structure RbItem where
  id : ℕ
  hash : String
  image : String
  tags : List String
  deriving DecidableEq, Repr

/-- Outcome of `s._select_url(item)` under the limiter (rb/index.py lines
185-197): a url, a `NoURL` raise, or a transient network raise
(`RequestException` / `HTTPError`). -/
inductive FetchResult where
  | ok (url : String)
  | noUrl
  | netErr
  deriving DecidableEq, Repr

/-- Whether a fetch outcome carries a url. -/
def FetchResult.isOk : FetchResult → Bool
  | FetchResult.ok _ => true
  | _ => false

/-- A row of the accumulated realbooru record table (rb/index.py lines
200-214); only the fields the claims speak about are carried. -/
structure RbRecord where
  id : ℕ
  tags : List String
  url : String
  deriving DecidableEq, Repr

/-- The in-memory crawl state of rb/index.py: the dedup set, the record
list, the tag table (a dict keyed by name, kept as an association list in
insertion order) and the processed counter. -/
structure RbState where
  exist_ids : Finset ℕ
  records : List RbRecord
  tags : List (String × ℕ)
  cnt : ℕ
  deriving DecidableEq

/-- Embedding of `sorted(set(filter(bool, re.split(r'\s+', ...))))` in
rb/index.py line 215: the duplicate-free sorted list of nonempty tag tokens
of an item. -/
def rb_item_tag_set (tags : List String) : List String :=
  List.insertionSort (fun a b => a ≤ b) ((tags.filter (fun t => t ≠ "")).dedup)

/-- Embedding of rb/index.py lines 216-219: bump the count of one tag name in
the tag table, creating the entry with count 0 first when absent. -/
def rb_bump_tag (table : List (String × ℕ)) (name : String) : List (String × ℕ) :=
  if table.any (fun p => p.1 = name) then
    table.map (fun p => if p.1 = name then (p.1, p.2 + 1) else p)
  else
    table ++ [(name, 1)]

/-- Fold of `rb_bump_tag` over the tag set of one item. -/
def rb_bump_tags (table : List (String × ℕ)) (names : List String) : List (String × ℕ) :=
  names.foldl rb_bump_tag table

/-- Embedding of the loop body of rb/index.py lines 172-222 for one candidate
item (the budget checks of lines 167-170 live in `rb_crawl_loop`):
already-seen items are skipped, empty items and `NoURL` items are marked seen
without a record, transient network errors leave the state untouched, and a
successful url selection appends a record, bumps the tag counts and marks the
item seen. -/
def rb_process_item (fetch : RbItem → FetchResult) (st : RbState) (item : RbItem) : RbState :=
  if item.id ∈ st.exist_ids then
    st
  else if item.hash = "" ∨ item.image = "" then
    { st with exist_ids := insert item.id st.exist_ids, cnt := st.cnt + 1 }
  else
    match fetch item with
    | FetchResult.noUrl =>
        { st with exist_ids := insert item.id st.exist_ids, cnt := st.cnt + 1 }
    | FetchResult.netErr => st
    | FetchResult.ok url =>
        { exist_ids := insert item.id st.exist_ids,
          records := st.records ++ [{ id := item.id, tags := item.tags, url := url }],
          tags := rb_bump_tags st.tags (rb_item_tag_set item.tags),
          cnt := st.cnt + 1 }

/-- Embedding of the main loop of rb/index.py lines 166-222: before each
candidate the processed-count budget and then the wall-clock budget are
checked (lines 167-170); `timeUp` is the oracle for the wall-clock test at
iteration `k`. -/
def rb_crawl_loop (fetch : RbItem → FetchResult) (timeUp : ℕ → Bool) (max_cnt : ℕ) :
    RbState → ℕ → List RbItem → RbState
  | st, _, [] => st
  | st, k, item :: rest =>
    if max_cnt ≤ st.cnt then st
    else if timeUp k then st
    else rb_crawl_loop fetch timeUp max_cnt (rb_process_item fetch st item) (k + 1) rest

/-- Embedding of rb/index.py lines 236-237: `json.dump(sorted(exist_ids), f)`. -/
def rb_export_exist_ids (st : RbState) : List ℕ :=
  st.exist_ids.sort (fun a b => a ≤ b)

/-! ## The skeb crawl loop (skb/newest.py lines 112-261)

A candidate is a `(username, post_id)` pair.  `client.get_post` is modelled as
a total function to post infos (it has no exception handler in the source; a
raise there aborts the whole run before any export, which no claim exercises).
The substring test `tag.lower() in cleaned_body.lower()` of line 154 is
carried as the boolean field `bodyHas` of the post info, and the media
download of line 175 as the oracle `downloadOk` on urls. -/

/-- The fields of one `client.get_post` answer that the claims speak about.
`articleImageUrl = ""` models a missing/falsy `article_image_url`. -/
structure SkbPostInfo where
  item_id : ℕ
  hasClient : Bool
  articleImageUrl : String
  tagList : List String
  bodyHas : String → Bool
  similar : List (String × ℕ)
  itemName : String

/-- A row of the accumulated `artworks.json` table (skb/newest.py lines
189-203); only the fields the claims speak about are carried. -/
structure SkbArtwork where
  item_id : ℕ
  post_id : ℕ
  filename : String
  tags : List String
  deriving DecidableEq, Repr

/-- The in-memory crawl state of skb/newest.py: the dedup set `exist_sids`,
the artwork list, the tag-name table `all_tags` (in insertion order; the
lowercased lookup dict `all_tags_map` of the source is recovered from it by
first-match lookup), the set of files downloaded into `img_dir`, the
similar-work queue with its suit-id set, and the processed counter. -/
structure SkbState where
  exist_sids : Finset String
  artworks : List SkbArtwork
  all_tags : List String
  images : List String
  queue : List (String × ℕ)
  queue_suit_ids : Finset String
  count : ℕ

/-- Embedding of `f'{username}_{post_id}'` (skb/newest.py line 123). -/
def skb_suit_id (c : String × ℕ) : String :=
  c.1 ++ "_" ++ toString c.2

/-- Embedding of Python `str.lower()` as a character-wise map over the
string's data. -/
def pyLower (s : String) : String :=
  String.mk (s.data.map Char.toLower)

/-- Embedding of the tag resolution of skb/newest.py lines 155-165: each kept
tag is replaced by the first-seen casing stored in `all_tags_map` when its
lowercase form is already known, and otherwise appended to the tag table.
Returns the resolved `final_tags` together with the updated tag table. -/
def skb_resolve_tags (all_tags : List String) : List String → List String × List String
  | [] => ([], all_tags)
  | t :: rest =>
    match all_tags.find? (fun n => pyLower n = pyLower t) with
    | some canon =>
        let p := skb_resolve_tags all_tags rest
        (canon :: p.1, p.2)
    | none =>
        let p := skb_resolve_tags (all_tags ++ [t]) rest
        (t :: p.1, p.2)

/-- Embedding of the similar-works enqueueing of skb/newest.py lines 179-187:
each similar reference unseen in both `exist_sids` and `queue_suit_ids` is
appended to the queue. -/
def skb_enqueue_similar (exist : Finset String) :
    List (String × ℕ) → Finset String → List (String × ℕ) → List (String × ℕ) × Finset String
  | q, sids, [] => (q, sids)
  | q, sids, s :: rest =>
    if skb_suit_id s ∉ exist ∧ skb_suit_id s ∉ sids then
      skb_enqueue_similar exist (q ++ [s]) (insert (skb_suit_id s) sids) rest
    else
      skb_enqueue_similar exist q sids rest

/-- Embedding of the loop body of skb/newest.py lines 123-207 for one
candidate (the post-processing budget checks of lines 208-211 live in
`skb_crawl_loop`): an already-seen suit id is skipped outright; a post
without client or without article image is marked seen without an artwork
row; otherwise the tags are resolved, the media download is attempted — on
download failure the body only logs and FALLS THROUGH, so the artwork row is
still appended and the suit id still marked seen, the download result only
deciding whether a file lands in `img_dir` — the similar works are enqueued
and the artwork row is appended. -/
def skb_process_item (getPost : String × ℕ → SkbPostInfo) (downloadOk : String → Bool)
    (st : SkbState) (c : String × ℕ) : SkbState :=
  if skb_suit_id c ∈ st.exist_sids then
    st
  else
    let info := getPost c
    if info.hasClient = false then
      { st with exist_sids := insert (skb_suit_id c) st.exist_sids, count := st.count + 1 }
    else if info.articleImageUrl = "" then
      { st with exist_sids := insert (skb_suit_id c) st.exist_sids, count := st.count + 1 }
    else
      let kept := info.tagList.filter info.bodyHas
      let resolved := skb_resolve_tags st.all_tags kept
      let imgs :=
        if downloadOk info.articleImageUrl then st.images ++ [info.itemName] else st.images
      let q2 := skb_enqueue_similar st.exist_sids st.queue st.queue_suit_ids info.similar
      { exist_sids := insert (skb_suit_id c) st.exist_sids,
        artworks := st.artworks ++
          [{ item_id := info.item_id, post_id := c.2, filename := info.itemName,
             tags := resolved.1 }],
        all_tags := resolved.2,
        images := imgs,
        queue := q2.1,
        queue_suit_ids := q2.2,
        count := st.count + 1 }

/-- Embedding of the main loop of skb/newest.py lines 122-211: the dedup
skip (`continue`) bypasses the budget checks, which run only after an item
was processed; `timeUp` is the oracle for the wall-clock test at iteration
`k`. -/
def skb_crawl_loop (getPost : String × ℕ → SkbPostInfo) (downloadOk : String → Bool)
    (timeUp : ℕ → Bool) (maxcnt : ℕ) :
    SkbState → ℕ → List (String × ℕ) → SkbState
  | st, _, [] => st
  | st, k, c :: rest =>
    if skb_suit_id c ∈ st.exist_sids then
      skb_crawl_loop getPost downloadOk timeUp maxcnt st (k + 1) rest
    else
      let st2 := skb_process_item getPost downloadOk st c
      if maxcnt ≤ st2.count then st2
      else if timeUp k then st2
      else skb_crawl_loop getPost downloadOk timeUp maxcnt st2 (k + 1) rest

/-- Embedding of the per-tag recount at export (skb/newest.py lines 245-248):
the number of OCCURRENCES of a tag name across the tag lists of all
accumulated artworks. -/
def skb_tags_analysis (artworks : List SkbArtwork) (name : String) : ℕ :=
  (artworks.map (fun a => a.tags.count name)).sum

/-- The sort key `lambda x: (-x['count'], x['name'])` shared by the tag
exports of skb/newest.py line 252 and rb/index.py line 232 (the latter is
`sort_values(['count', 'name'], ascending=[False, True])`). -/
def count_name_key (p : String × ℕ) : Lex (ℤ × String) :=
  toLex ((- (p.2 : ℤ), p.1) : ℤ × String)

/-- Comparison by descending count and then ascending name. -/
def count_name_le (a b : String × ℕ) : Prop :=
  count_name_key a ≤ count_name_key b

instance : DecidableRel count_name_le := fun a b =>
  inferInstanceAs (Decidable (count_name_key a ≤ count_name_key b))

instance : IsTotal (String × ℕ) count_name_le :=
  ⟨fun a b => le_total (count_name_key a) (count_name_key b)⟩

instance : IsTrans (String × ℕ) count_name_le :=
  ⟨fun _ _ _ hab hbc => le_trans hab hbc⟩

/-- Embedding of the tag-table export of skb/newest.py lines 250-252: every
table entry paired with its recomputed count, sorted by descending count and
then by name. -/
def skb_export_tags (st : SkbState) : List (String × ℕ) :=
  List.insertionSort count_name_le
    (st.all_tags.map (fun n => (n, skb_tags_analysis st.artworks n)))

/-- Embedding of the tag-table export of rb/index.py lines 231-233:
`sort_values(['count', 'name'], ascending=[False, True])` over the table
entries. -/
def rb_export_tags (st : RbState) : List (String × ℕ) :=
  List.insertionSort count_name_le st.tags

/-- Embedding of skb/newest.py lines 255-256: `json.dump(sorted(exist_sids), f)`. -/
def skb_export_exist_sids (st : SkbState) : List String :=
  st.exist_sids.sort (fun a b => a ≤ b)

/-- The artifacts written by a finalized skb run (lines 218-261). -/
structure SkbExportData where
  exist_sids : List String
  artworks : List SkbArtwork
  tags : List (String × ℕ)
  queue : List (String × ℕ)
  packName : String
  packImages : ℕ
  deriving Repr

/-- Embedding of the finalization of skb/newest.py lines 213-261: after the
queue truncation `queue = queue[inc.v:]` (the `consumed` prefix was drained
by the queue source), an empty `img_dir` makes the run return before any
pack, record, tag, queue or exist-sid file is produced; otherwise the pack is
built and every artifact exported. -/
def skb_finalize (packName : String) (consumed : ℕ) (st : SkbState) : Option SkbExportData :=
  let q := st.queue.drop consumed
  if st.images = [] then none
  else
    some { exist_sids := skb_export_exist_sids st,
           artworks := List.insertionSort (fun a b => a.item_id ≤ b.item_id) st.artworks,
           tags := skb_export_tags st,
           queue := q,
           packName := packName,
           packImages := st.images.length }

/-- The persisted remote state a run starts from; the upload at the end of a
finalized run replaces it wholesale, a run that returned early leaves it
untouched. -/
structure SkbPersisted where
  exist_sids : List String
  artworks : List SkbArtwork
  tags : List (String × ℕ)
  queue : List (String × ℕ)
  deriving Repr

/-- Effect of a run's outcome on the persisted store: `none` (the early
return of line 216) leaves every persisted artifact unchanged. -/
def skb_persisted_after (old : SkbPersisted) (res : Option SkbExportData) : SkbPersisted :=
  match res with
  | none => old
  | some e =>
      { exist_sids := e.exist_sids, artworks := e.artworks, tags := e.tags, queue := e.queue }

/-! ## The mihuashi per-item step (mhs/newest.py lines 226-301) and tag sort -/

/-- A tag row of the mihuashi tag table (id, name, type; the count column is
recomputed at export). -/
structure MhsTag where
  id : ℕ
  name : String
  type : String
  count : ℕ
  deriving DecidableEq, Repr

/-- A row of the accumulated mihuashi `artworks.json` (lines 282-291). -/
structure MhsArt where
  id : ℕ
  filename : String
  tag_ids : List ℕ
  deriving DecidableEq, Repr

/-- The detail-fetch fields of one artwork (lines 258-276). -/
structure MhsArtworkInfo where
  url : String
  itemName : String
  tagItems : List MhsTag

/-- Outcome of the detail request `client.session.get(...)` of line 238:
a transient raise, a non-2xx status code, or a parsed artwork payload. -/
inductive MhsFetchResult where
  | netErr
  | badStatus (code : ℕ)
  | ok (info : MhsArtworkInfo)

/-- The in-memory crawl state of mhs/newest.py. -/
structure MhsState where
  exist_sids : Finset String
  artworks : List MhsArt
  all_tags : List MhsTag
  all_tag_ids : Finset ℕ
  images : List String
  count : ℕ

/-- Embedding of `f'artwork_{item_id}'` (mhs/newest.py line 230). -/
def mhs_suit_id (item_id : ℕ) : String :=
  "artwork_" ++ toString item_id

/-- Embedding of the tag merge of mhs/newest.py lines 277-280: append each
artwork tag whose id is not yet in `all_tag_ids`. -/
def mhs_merge_tags (all_tags : List MhsTag) (all_tag_ids : Finset ℕ) :
    List MhsTag → List MhsTag × Finset ℕ
  | [] => (all_tags, all_tag_ids)
  | t :: rest =>
    if t.id ∈ all_tag_ids then mhs_merge_tags all_tags all_tag_ids rest
    else mhs_merge_tags (all_tags ++ [t]) (insert t.id all_tag_ids) rest

/-- Embedding of the loop body of mhs/newest.py lines 230-301 for one
candidate id: seen ids are skipped; a transient request error skips without
marking seen; status 403 refreshes the session and skips without marking
seen; statuses 401, 404 and 423 log and FALL THROUGH to `exist_sids.add`
without appending an artwork; any other non-2xx status reaches
`logging.error(f'... {err!r}')` where `err` is unbound, so a `NameError`
aborts the run (modelled by `Except.error`); a parsed payload attempts the
download — a download failure skips without marking seen — and on success
merges tags, appends the artwork row and marks the id seen. -/
def mhs_process_item (fetch : ℕ → MhsFetchResult) (downloadOk : String → Bool)
    (st : MhsState) (item_id : ℕ) : Except Unit MhsState :=
  if mhs_suit_id item_id ∈ st.exist_sids then
    Except.ok st
  else
    match fetch item_id with
    | MhsFetchResult.netErr => Except.ok st
    | MhsFetchResult.badStatus code =>
      if code = 403 then Except.ok st
      else if code = 401 ∨ code = 404 ∨ code = 423 then
        Except.ok { st with exist_sids := insert (mhs_suit_id item_id) st.exist_sids,
                            count := st.count + 1 }
      else Except.error ()
    | MhsFetchResult.ok info =>
      if downloadOk info.url then
        let merged := mhs_merge_tags st.all_tags st.all_tag_ids info.tagItems
        Except.ok { exist_sids := insert (mhs_suit_id item_id) st.exist_sids,
                    artworks := st.artworks ++
                      [{ id := item_id, filename := info.itemName,
                         tag_ids := info.tagItems.map (fun t => t.id) }],
                    all_tags := merged.1,
                    all_tag_ids := merged.2,
                    images := st.images ++ [info.itemName],
                    count := st.count + 1 }
      else Except.ok st

/-- The sort key actually used at export (mhs/newest.py lines 347-353):
`(1 if custom else 0, (-count, id) if custom else (type, id))`.  Because the
first component separates the two branches, the heterogeneous Python second
components are never compared across branches, so the key embeds into one
lexicographic product: custom tags map to `(1, "", -count, id)` and curated
tags to `(0, type, 0, id)`. -/
def mhs_tag_key (t : MhsTag) : Lex (ℕ × Lex (String × Lex (ℤ × ℕ))) :=
  if t.type = "custom_tag" then
    toLex ((1 : ℕ), toLex (("" : String), toLex ((- (t.count : ℤ), t.id) : ℤ × ℕ)))
  else
    toLex ((0 : ℕ), toLex ((t.type : String), toLex (((0 : ℤ), t.id) : ℤ × ℕ)))

/-- The export ordering of the mihuashi tag table as the source computes it. -/
def mhs_tag_le (a b : MhsTag) : Prop :=
  mhs_tag_key a ≤ mhs_tag_key b

instance : DecidableRel mhs_tag_le := fun a b =>
  inferInstanceAs (Decidable (mhs_tag_key a ≤ mhs_tag_key b))

instance : IsTotal MhsTag mhs_tag_le :=
  ⟨fun a b => le_total (mhs_tag_key a) (mhs_tag_key b)⟩

instance : IsTrans MhsTag mhs_tag_le :=
  ⟨fun _ _ _ hab hbc => le_trans hab hbc⟩

/-- Embedding of `sorted(all_tags, key=...)` of mhs/newest.py lines 347-353
(Python `sorted` and insertion sort are both stable, so on a total key they
agree). -/
def mhs_sort_tags (l : List MhsTag) : List MhsTag :=
  List.insertionSort mhs_tag_le l

/-- Modelled from the spec words of section 4.5 for comparison: "curated/
system tags before free-form custom tags, then by descending count, then by
name". -/
def mhs_spec_tag_key (t : MhsTag) : Lex (ℕ × Lex (ℤ × String)) :=
  if t.type = "custom_tag" then
    toLex ((1 : ℕ), toLex ((- (t.count : ℤ), t.name) : ℤ × String))
  else
    toLex ((0 : ℕ), toLex ((- (t.count : ℤ), t.name) : ℤ × String))

/-- The ordering the spec sentence describes, for comparison with
`mhs_sort_tags`. -/
def mhs_spec_tag_le (a b : MhsTag) : Prop :=
  mhs_spec_tag_key a ≤ mhs_spec_tag_key b

instance : DecidableRel mhs_spec_tag_le := fun a b =>
  inferInstanceAs (Decidable (mhs_spec_tag_key a ≤ mhs_spec_tag_key b))

instance : IsTotal MhsTag mhs_spec_tag_le :=
  ⟨fun a b => le_total (mhs_spec_tag_key a) (mhs_spec_tag_key b)⟩

instance : IsTrans MhsTag mhs_spec_tag_le :=
  ⟨fun _ _ _ hab hbc => le_trans hab hbc⟩

/-- Sorting by the spec-described key (the comparison point for C9). -/
def mhs_spec_sort_tags (l : List MhsTag) : List MhsTag :=
  List.insertionSort mhs_spec_tag_le l

/-! ## Python tuple unpacking of the `use_random=False` id source
(skb/newest.py lines 112-122)

With `use_random=False` the source sets
`id_source = _iter_artwork_ids_from_page(max_count_limit=1000),` — the
trailing comma builds a ONE-ELEMENT TUPLE whose sole element is the page
generator object.  The loop `for username, post_id in id_source` therefore
iterates over that tuple and unpacks the generator object itself into the
two targets, which iterates the generator and requires it to yield exactly
two values.  `PyVal` models the Python values involved and `pyUnpack2` the
two-target unpacking. -/

/-- Python values reaching the skb candidate loop: strings, ints, pairs
(tuples of two), and a generator object carried with its yield list. -/
inductive PyVal where
  | pyStr (s : String)
  | pyInt (n : ℕ)
  | pyPair (a b : PyVal)
  | pyGenOf (yields : List PyVal)

/-- Two-target unpacking `u, p = v`: a pair binds componentwise; a generator
is drained and must yield exactly two values, otherwise a `ValueError`
(`none`); strings and ints of the shapes reaching this loop do not unpack
into two targets. -/
def pyUnpack2 : PyVal → Option (PyVal × PyVal)
  | PyVal.pyPair a b => some (a, b)
  | PyVal.pyGenOf [a, b] => some (a, b)
  | PyVal.pyGenOf _ => none
  | PyVal.pyStr _ => none
  | PyVal.pyInt _ => none

/-- The `use_random=False` id source of skb/newest.py line 119: the
one-element tuple containing the page generator. -/
def skb_id_source_norandom (pageYields : List PyVal) : List PyVal :=
  [PyVal.pyGenOf pageYields]

/-- The candidates the per-candidate loop manages to bind when iterating the
`use_random=False` id source: the loop raises at the first failing unpack, so
the bound candidates are the prefix of successful unpacks. -/
def skb_norandom_candidates (pageYields : List PyVal) : List (PyVal × PyVal) :=
  ((skb_id_source_norandom pageYields).map pyUnpack2).takeWhile Option.isSome
    |>.filterMap id

/-! ## Concrete states and inputs used to evaluate the embeddings -/

/-- The empty in-memory skb state a bootstrap run starts from. -/
def skbEmptyState : SkbState :=
  { exist_sids := ∅, artworks := [], all_tags := [], images := [],
    queue := [], queue_suit_ids := ∅, count := 0 }

/-- A post whose client, article image and (case-duplicated) tag list are all
present, every tag occurring in the body. -/
def skbInfoDup : SkbPostInfo :=
  { item_id := 7, hasClient := true, articleImageUrl := "img.png",
    tagList := ["cat", "cat"], bodyHas := fun _ => true, similar := [],
    itemName := "c7" }

/-- Processing the post of `skbInfoDup` when the media download raises a
transient `RequestException`. -/
def skbStepDownloadFail : SkbState :=
  skb_process_item (fun _ => skbInfoDup) (fun _ => false) skbEmptyState ("u", 1)

/-- Processing the post of `skbInfoDup` when the media download succeeds. -/
def skbStepDup : SkbState :=
  skb_process_item (fun _ => skbInfoDup) (fun _ => true) skbEmptyState ("u", 1)

/-- Two curated (non-custom) mihuashi tags of one type whose counts and names
order oppositely to their ids. -/
def mhsTagA : MhsTag := { id := 1, name := "b", type := "style", count := 0 }

/-- Companion tag to `mhsTagA`: larger id, larger count, smaller name. -/
def mhsTagB : MhsTag := { id := 2, name := "a", type := "style", count := 5 }

/-- The empty in-memory rb state a bootstrap run starts from. -/
def rbEmptyState : RbState :=
  { exist_ids := ∅, records := [], tags := [], cnt := 0 }

/-- Six distinct well-formed realbooru items, more than a budget of five. -/
def rbItemsSix : List RbItem :=
  [ { id := 1, hash := "h1", image := "i1", tags := ["a"] },
    { id := 2, hash := "h2", image := "i2", tags := ["a", "b"] },
    { id := 3, hash := "h3", image := "i3", tags := ["b"] },
    { id := 4, hash := "h4", image := "i4", tags := ["c"] },
    { id := 5, hash := "h5", image := "i5", tags := [] },
    { id := 6, hash := "h6", image := "i6", tags := ["a"] } ]

/-- Six distinct skb candidates, more than a budget of five. -/
def skbCandsSix : List (String × ℕ) :=
  [("u", 1), ("u", 2), ("u", 3), ("u", 4), ("u", 5), ("u", 6)]

/-- An rb item whose `hash` field is falsy (the empty-payload skip case). -/
def rbItemEmpty : RbItem := { id := 11, hash := "", image := "i", tags := [] }

/-- The empty in-memory mhs state a bootstrap run starts from. -/
def mhsEmptyState : MhsState :=
  { exist_sids := ∅, artworks := [], all_tags := [], all_tag_ids := ∅,
    images := [], count := 0 }

/-- Two yields of the skb page generator, both proper
`(username, post_id)` pairs. -/
def skbPagePairs : List PyVal :=
  [ PyVal.pyPair (PyVal.pyStr "u") (PyVal.pyInt 1),
    PyVal.pyPair (PyVal.pyStr "v") (PyVal.pyInt 2) ]

/-! ## The tag-count invariant of the rb crawler (claims about the tag table) -/

/-- The number of accumulated records whose resolved tag-set contains a name. -/
def rb_records_with_tag (records : List RbRecord) (name : String) : ℕ :=
  (records.filter (fun r => decide (name ∈ rb_item_tag_set r.tags))).length

/-- The tag-table invariant of rb/index.py: table keys are unique, every
entry counts exactly the accumulated records whose resolved tag-set contains
its name, and every tag token of an accumulated record has a table entry. -/
def rb_tags_invariant (st : RbState) : Prop :=
  ((st.tags.map Prod.fst).Nodup)
  ∧ (∀ p ∈ st.tags, p.2 = rb_records_with_tag st.records p.1)
  ∧ (∀ r ∈ st.records, ∀ t ∈ rb_item_tag_set r.tags, t ∈ st.tags.map Prod.fst)

/-- Decidability of the tag-table invariant, for concrete evaluation. -/
instance (st : RbState) : Decidable (rb_tags_invariant st) :=
  decidable_of_iff
    (((st.tags.map Prod.fst).Nodup)
      ∧ (∀ p ∈ st.tags, p.2 = rb_records_with_tag st.records p.1)
      ∧ (∀ r ∈ st.records, ∀ t ∈ rb_item_tag_set r.tags, t ∈ st.tags.map Prod.fst))
    Iff.rfl

/-- Two distinct well-formed rb items carrying the same single tag. -/
def rbItemsTwoA : List RbItem :=
  [ { id := 21, hash := "h", image := "i", tags := ["a"] },
    { id := 22, hash := "h", image := "i", tags := ["a"] } ]

/-- An skb state that has already seen the suit id of candidate ("u", 1)
and holds no images. -/
def skbSeenState : SkbState :=
  { exist_sids := {"u_1"}, artworks := [], all_tags := [], images := [],
    queue := [], queue_suit_ids := ∅, count := 0 }

/-- A persisted skb store from an earlier run. -/
def skbOldPersisted : SkbPersisted :=
  { exist_sids := ["u_1"], artworks := [], tags := [], queue := [] }

/-- An already-seen item leaves the rb state untouched (the dedup skip of
rb/index.py lines 172-174). -/
theorem rb_process_seen (fetch : RbItem → FetchResult) (st : RbState) (item : RbItem)
    (h : item.id ∈ st.exist_ids) : rb_process_item fetch st item = st := by
  unfold rb_process_item
  rw [if_pos h]

/-- A fresh item whose fetch is not a transient error is counted and marked
seen, whatever its branch. -/
theorem rb_process_fresh_step (fetch : RbItem → FetchResult) (st : RbState) (item : RbItem)
    (hfresh : item.id ∉ st.exist_ids) (hnet : fetch item ≠ FetchResult.netErr) :
    (rb_process_item fetch st item).cnt = st.cnt + 1 ∧
    (rb_process_item fetch st item).exist_ids = insert item.id st.exist_ids := by
  unfold rb_process_item
  rw [if_neg hfresh]
  by_cases he : item.hash = "" ∨ item.image = ""
  · rw [if_pos he]
    exact ⟨rfl, rfl⟩
  · rw [if_neg he]
    cases hf : fetch item with
    | ok url => exact ⟨rfl, rfl⟩
    | noUrl => exact ⟨rfl, rfl⟩
    | netErr => exact absurd hf hnet

/-- One processing step never removes ids from the dedup set. -/
theorem rb_process_exist_mono (fetch : RbItem → FetchResult) (st : RbState) (item : RbItem) :
    st.exist_ids ⊆ (rb_process_item fetch st item).exist_ids := by
  unfold rb_process_item
  by_cases h0 : item.id ∈ st.exist_ids
  · rw [if_pos h0]
  · rw [if_neg h0]
    by_cases he : item.hash = "" ∨ item.image = ""
    · rw [if_pos he]
      exact Finset.subset_insert _ _
    · rw [if_neg he]
      cases fetch item with
      | ok url => exact Finset.subset_insert _ _
      | noUrl => exact Finset.subset_insert _ _
      | netErr => exact Finset.Subset.refl _

/-- The crawl loop never removes ids from the dedup set. -/
theorem rb_loop_exist_mono (fetch : RbItem → FetchResult) (timeUp : ℕ → Bool) (m : ℕ) :
    ∀ (items : List RbItem) (st : RbState) (k : ℕ),
      st.exist_ids ⊆ (rb_crawl_loop fetch timeUp m st k items).exist_ids := by
  intro items
  induction items with
  | nil =>
    intro st k
    exact Finset.Subset.refl _
  | cons item rest ih =>
    intro st k
    unfold rb_crawl_loop
    by_cases h1 : m ≤ st.cnt
    · rw [if_pos h1]
    · rw [if_neg h1]
      by_cases h2 : timeUp k = true
      · rw [if_pos h2]
      · rw [if_neg h2]
        exact Finset.Subset.trans (rb_process_exist_mono fetch st item) (ih _ _)

/-- Every record present after one step was present before it, or its id is
in the dedup set after the step. -/
theorem rb_process_records_tracked (fetch : RbItem → FetchResult) (st : RbState) (item : RbItem) :
    ∀ r ∈ (rb_process_item fetch st item).records,
      r ∈ st.records ∨ r.id ∈ (rb_process_item fetch st item).exist_ids := by
  unfold rb_process_item
  by_cases h0 : item.id ∈ st.exist_ids
  · rw [if_pos h0]
    intro r hr
    exact Or.inl hr
  · rw [if_neg h0]
    by_cases he : item.hash = "" ∨ item.image = ""
    · rw [if_pos he]
      intro r hr
      exact Or.inl hr
    · rw [if_neg he]
      cases fetch item with
      | ok url =>
        intro r hr
        rcases List.mem_append.mp hr with hl | hr2
        · exact Or.inl hl
        · rcases List.mem_singleton.mp hr2 with rfl
          exact Or.inr (Finset.mem_insert_self _ _)
      | noUrl =>
        intro r hr
        exact Or.inl hr
      | netErr =>
        intro r hr
        exact Or.inl hr

/-- Every record present after a crawl loop was present at its start, or its
id is in the dedup set when the loop ends. -/
theorem rb_loop_records_tracked (fetch : RbItem → FetchResult) (timeUp : ℕ → Bool) (m : ℕ) :
    ∀ (items : List RbItem) (st : RbState) (k : ℕ),
      ∀ r ∈ (rb_crawl_loop fetch timeUp m st k items).records,
        r ∈ st.records ∨ r.id ∈ (rb_crawl_loop fetch timeUp m st k items).exist_ids := by
  intro items
  induction items with
  | nil =>
    intro st k r hr
    exact Or.inl hr
  | cons item rest ih =>
    intro st k
    unfold rb_crawl_loop
    by_cases h1 : m ≤ st.cnt
    · rw [if_pos h1]
      intro r hr
      exact Or.inl hr
    · rw [if_neg h1]
      by_cases h2 : timeUp k = true
      · rw [if_pos h2]
        intro r hr
        exact Or.inl hr
      · rw [if_neg h2]
        intro r hr
        rcases ih (rb_process_item fetch st item) (k + 1) r hr with h3 | h3
        · rcases rb_process_records_tracked fetch st item r h3 with h4 | h4
          · exact Or.inl h4
          · exact Or.inr (rb_loop_exist_mono fetch timeUp m rest _ (k + 1) h4)
        · exact Or.inr h3

/-- Processed-count bookkeeping of the rb loop: with the wall-clock oracle
never firing, fresh distinct non-erroring items, and a count within budget,
the final count is the budget-clamped sum. -/
theorem rb_loop_cnt (fetch : RbItem → FetchResult) (timeUp : ℕ → Bool) (m : ℕ)
    (htime : ∀ k, timeUp k = false) :
    ∀ (items : List RbItem) (st : RbState) (k : ℕ),
      (∀ i ∈ items, fetch i ≠ FetchResult.netErr) →
      (items.map RbItem.id).Nodup →
      (∀ i ∈ items, i.id ∉ st.exist_ids) →
      st.cnt ≤ m →
      (rb_crawl_loop fetch timeUp m st k items).cnt = min (st.cnt + items.length) m := by
  intro items
  induction items with
  | nil =>
    intro st k _ _ _ hle
    simpa [rb_crawl_loop] using (Nat.min_eq_left hle).symm
  | cons item rest ih =>
    intro st k hnet hnodup hfresh hle
    unfold rb_crawl_loop
    by_cases h1 : m ≤ st.cnt
    · rw [if_pos h1]
      have hm : st.cnt = m := Nat.le_antisymm hle h1
      rw [hm]
      simp
    · rw [if_neg h1]
      rw [htime k, if_neg (by simp)]
      have hstep := rb_process_fresh_step fetch st item
        (hfresh item (List.mem_cons_self _ _)) (hnet item (List.mem_cons_self _ _))
      have hrest : (rest.map RbItem.id).Nodup := (List.nodup_cons.mp hnodup).2
      have hhead : item.id ∉ rest.map RbItem.id := by
        have := (List.nodup_cons.mp hnodup).1
        simpa using this
      have hfresh2 : ∀ i ∈ rest, i.id ∉ (rb_process_item fetch st item).exist_ids := by
        intro i hi
        rw [hstep.2]
        intro hmem
        rcases Finset.mem_insert.mp hmem with heq | hmem2
        · exact hhead (heq ▸ List.mem_map_of_mem RbItem.id hi)
        · exact hfresh i (List.mem_cons_of_mem _ hi) hmem2
      have hle2 : (rb_process_item fetch st item).cnt ≤ m := by
        rw [hstep.1]
        omega
      have := ih (rb_process_item fetch st item) (k + 1)
        (fun i hi => hnet i (List.mem_cons_of_mem _ hi)) hrest hfresh2 hle2
      rw [this, hstep.1]
      simp [List.length_cons]
      omega

/-- A fresh skb candidate is counted and marked seen by every branch of the
loop body (including the no-client, no-image and failed-download branches). -/
theorem skb_process_fresh_step (getPost : String × ℕ → SkbPostInfo)
    (downloadOk : String → Bool) (st : SkbState) (c : String × ℕ)
    (hfresh : skb_suit_id c ∉ st.exist_sids) :
    (skb_process_item getPost downloadOk st c).count = st.count + 1 ∧
    (skb_process_item getPost downloadOk st c).exist_sids =
      insert (skb_suit_id c) st.exist_sids := by
  unfold skb_process_item
  rw [if_neg hfresh]
  by_cases h1 : (getPost c).hasClient = false
  · rw [if_pos h1]
    exact ⟨rfl, rfl⟩
  · rw [if_neg h1]
    by_cases h2 : (getPost c).articleImageUrl = ""
    · rw [if_pos h2]
      exact ⟨rfl, rfl⟩
    · rw [if_neg h2]
      exact ⟨rfl, rfl⟩

/-- A crawl over candidates that are all already seen is a complete no-op on
the state (the `continue` of skb/newest.py line 127 bypasses even the budget
checks). -/
theorem skb_loop_all_seen (getPost : String × ℕ → SkbPostInfo)
    (downloadOk : String → Bool) (timeUp : ℕ → Bool) (m : ℕ) :
    ∀ (cands : List (String × ℕ)) (st : SkbState) (k : ℕ),
      (∀ c ∈ cands, skb_suit_id c ∈ st.exist_sids) →
      skb_crawl_loop getPost downloadOk timeUp m st k cands = st := by
  intro cands
  induction cands with
  | nil =>
    intro st k _
    rfl
  | cons c rest ih =>
    intro st k hseen
    unfold skb_crawl_loop
    rw [if_pos (hseen c (List.mem_cons_self _ _))]
    exact ih st (k + 1) (fun d hd => hseen d (List.mem_cons_of_mem _ hd))

/-- Processed-count bookkeeping of the skb loop: with the wall-clock oracle
never firing, fresh distinct candidates, and a count strictly within budget,
the final count is the budget-clamped sum. -/
theorem skb_loop_count (getPost : String × ℕ → SkbPostInfo) (downloadOk : String → Bool)
    (timeUp : ℕ → Bool) (m : ℕ) (htime : ∀ k, timeUp k = false) :
    ∀ (cands : List (String × ℕ)) (st : SkbState) (k : ℕ),
      (cands.map skb_suit_id).Nodup →
      (∀ c ∈ cands, skb_suit_id c ∉ st.exist_sids) →
      st.count < m →
      (skb_crawl_loop getPost downloadOk timeUp m st k cands).count =
        min (st.count + cands.length) m := by
  intro cands
  induction cands with
  | nil =>
    intro st k _ _ hlt
    simpa [skb_crawl_loop] using (Nat.min_eq_left (Nat.le_of_lt hlt)).symm
  | cons c rest ih =>
    intro st k hnodup hfresh hlt
    unfold skb_crawl_loop
    rw [if_neg (hfresh c (List.mem_cons_self _ _))]
    have hstep := skb_process_fresh_step getPost downloadOk st c
      (hfresh c (List.mem_cons_self _ _))
    by_cases h1 : m ≤ (skb_process_item getPost downloadOk st c).count
    · rw [if_pos h1]
      have : (skb_process_item getPost downloadOk st c).count = m := by
        rw [hstep.1] at h1 ⊢
        omega
      rw [this]
      rw [hstep.1] at this
      simp [List.length_cons]
      omega
    · rw [if_neg h1]
      rw [htime k, if_neg (by simp)]
      have hrest : (rest.map skb_suit_id).Nodup := (List.nodup_cons.mp hnodup).2
      have hhead : skb_suit_id c ∉ rest.map skb_suit_id := by
        have := (List.nodup_cons.mp hnodup).1
        simpa using this
      have hfresh2 : ∀ d ∈ rest,
          skb_suit_id d ∉ (skb_process_item getPost downloadOk st c).exist_sids := by
        intro d hd
        rw [hstep.2]
        intro hmem
        rcases Finset.mem_insert.mp hmem with heq | hmem2
        · exact hhead (heq ▸ List.mem_map_of_mem skb_suit_id hd)
        · exact hfresh d (List.mem_cons_of_mem _ hd) hmem2
      have hlt2 : (skb_process_item getPost downloadOk st c).count < m :=
        Nat.lt_of_le_of_ne (by rw [hstep.1]; omega) (fun h => h1 (le_of_eq h.symm))
      have := ih (skb_process_item getPost downloadOk st c) (k + 1) hrest hfresh2 hlt2
      rw [this, hstep.1]
      simp [List.length_cons]
      omega

/-- Keys of the table after one bump: unchanged when the name was present,
extended by it otherwise. -/
theorem rb_bump_tag_keys (table : List (String × ℕ)) (n : String) :
    (rb_bump_tag table n).map Prod.fst =
      if table.any (fun p => p.1 = n) then table.map Prod.fst
      else table.map Prod.fst ++ [n] := by
  unfold rb_bump_tag
  by_cases h : table.any (fun p => p.1 = n)
  · rw [if_pos h, if_pos h, List.map_map]
    congr 1
    funext p
    by_cases hp : p.1 = n <;> simp [hp]
  · rw [if_neg h, if_neg h]
    simp

/-- Key membership after one bump. -/
theorem rb_bump_tag_mem_keys (table : List (String × ℕ)) (n m : String) :
    m ∈ (rb_bump_tag table n).map Prod.fst ↔ m ∈ table.map Prod.fst ∨ m = n := by
  rw [rb_bump_tag_keys]
  by_cases h : table.any (fun p => p.1 = n)
  · rw [if_pos h]
    rcases List.any_eq_true.mp h with ⟨p, hp, hpn⟩
    constructor
    · exact Or.inl
    · rintro (hm | rfl)
      · exact hm
      · have := List.mem_map_of_mem Prod.fst hp
        rwa [of_decide_eq_true hpn] at this
  · rw [if_neg h]
    simp

/-- Key uniqueness survives one bump. -/
theorem rb_bump_tag_keys_nodup (table : List (String × ℕ)) (n : String)
    (hK : (table.map Prod.fst).Nodup) : ((rb_bump_tag table n).map Prod.fst).Nodup := by
  rw [rb_bump_tag_keys]
  by_cases h : table.any (fun p => p.1 = n)
  · rw [if_pos h]
    exact hK
  · rw [if_neg h]
    have hn : n ∉ table.map Prod.fst := by
      intro hmem
      rcases List.mem_map.mp hmem with ⟨p, hp, hpn⟩
      exact (List.any_eq_true.not.mp h) ⟨p, hp, decide_eq_true hpn⟩
    simpa using List.nodup_append.mpr ⟨hK, List.nodup_singleton n, by simpa using hn⟩

/-- Values of the table after one bump: the bumped name gains one, every
other entry is untouched. -/
theorem rb_bump_tag_values (f : String → ℕ) (table : List (String × ℕ)) (n : String)
    (hC : ∀ p ∈ table, p.2 = f p.1)
    (hz : n ∉ table.map Prod.fst → f n = 0) :
    ∀ p ∈ rb_bump_tag table n, p.2 = if p.1 = n then f p.1 + 1 else f p.1 := by
  unfold rb_bump_tag
  by_cases h : table.any (fun p => p.1 = n)
  · rw [if_pos h]
    intro p hp
    rcases List.mem_map.mp hp with ⟨q, hq, hqe⟩
    by_cases hqn : q.1 = n
    · rw [if_pos hqn] at hqe
      rw [← hqe]
      simp only [hqn, if_pos rfl]
      rw [← hqn]
      exact congrArg (· + 1) (hC q hq)
    · rw [if_neg hqn] at hqe
      rw [← hqe, if_neg hqn]
      exact hC q hq
  · rw [if_neg h]
    have hnone : ∀ p ∈ table, p.1 ≠ n := by
      intro p hp hpn
      exact (List.any_eq_true.not.mp h) ⟨p, hp, decide_eq_true hpn⟩
    intro p hp
    rcases List.mem_append.mp hp with hl | hr
    · rw [if_neg (hnone p hl)]
      exact hC p hl
    · rcases List.mem_singleton.mp hr with rfl
      have hn : n ∉ table.map Prod.fst := by
        intro hmem
        rcases List.mem_map.mp hmem with ⟨q, hq, hqn⟩
        exact hnone q hq hqn
      simp [hz hn]

/-- Folding bumps over a duplicate-free name list: keys stay unique, the
named entries each gain exactly one, all others are untouched, and the key
set grows by exactly the names. -/
theorem rb_bump_tags_spec :
    ∀ (names : List String) (f : String → ℕ) (table : List (String × ℕ)),
      names.Nodup →
      (table.map Prod.fst).Nodup →
      (∀ p ∈ table, p.2 = f p.1) →
      (∀ n ∈ names, n ∉ table.map Prod.fst → f n = 0) →
      ((rb_bump_tags table names).map Prod.fst).Nodup
      ∧ (∀ p ∈ rb_bump_tags table names,
          p.2 = if p.1 ∈ names then f p.1 + 1 else f p.1)
      ∧ (∀ m, m ∈ (rb_bump_tags table names).map Prod.fst ↔
          m ∈ table.map Prod.fst ∨ m ∈ names) := by
  intro names
  induction names with
  | nil =>
    intro f table _ hK hC _
    refine ⟨hK, ?_, ?_⟩
    · intro p hp
      simpa using hC p hp
    · intro m
      simp [rb_bump_tags]
  | cons n rest ih =>
    intro f table hnodup hK hC hz
    have hsingleK := rb_bump_tag_keys_nodup table n hK
    have hsingleV := rb_bump_tag_values f table n hC (hz n (List.mem_cons_self _ _))
    have hstep : rb_bump_tags table (n :: rest) = rb_bump_tags (rb_bump_tag table n) rest := rfl
    have hrest : rest.Nodup := (List.nodup_cons.mp hnodup).2
    have hnmem : n ∉ rest := (List.nodup_cons.mp hnodup).1
    have hC2 : ∀ p ∈ rb_bump_tag table n,
        p.2 = (fun m => if m = n then f m + 1 else f m) p.1 := hsingleV
    have hz2 : ∀ r ∈ rest, r ∉ (rb_bump_tag table n).map Prod.fst →
        (fun m => if m = n then f m + 1 else f m) r = 0 := by
      intro r hr hrk
      have hr2 : ¬(r ∈ table.map Prod.fst ∨ r = n) :=
        fun hc => hrk ((rb_bump_tag_mem_keys table n r).mpr hc)
      push_neg at hr2
      simp only [if_neg hr2.2]
      exact hz r (List.mem_cons_of_mem _ hr) hr2.1
    obtain ⟨ihK, ihV, ihM⟩ :=
      ih (fun m => if m = n then f m + 1 else f m) (rb_bump_tag table n) hrest hsingleK hC2 hz2
    rw [hstep]
    refine ⟨ihK, ?_, ?_⟩
    · intro p hp
      have := ihV p hp
      by_cases hpn : p.1 = n
      · rw [hpn] at this ⊢
        rw [if_neg hnmem, if_pos rfl] at this
        rw [if_pos (List.mem_cons_self _ _)]
        simpa using this
      · rw [if_neg hpn] at this
        by_cases hpr : p.1 ∈ rest
        · rw [if_pos hpr] at this
          rw [if_pos (List.mem_cons_of_mem _ hpr)]
          exact this
        · rw [if_neg hpr] at this
          rw [if_neg (by simp [hpn, hpr])]
          exact this
    · intro m
      rw [ihM m, rb_bump_tag_mem_keys]
      constructor
      · rintro ((hm | rfl) | hm)
        · exact Or.inl hm
        · exact Or.inr (List.mem_cons_self _ _)
        · exact Or.inr (List.mem_cons_of_mem _ hm)
      · rintro (hm | hm)
        · exact Or.inl (Or.inl hm)
        · rcases List.mem_cons.mp hm with rfl | hm2
          · exact Or.inl (Or.inr rfl)
          · exact Or.inr hm2

/-- The resolved tag-set of an item has no duplicates. -/
theorem rb_item_tag_set_nodup (tags : List String) : (rb_item_tag_set tags).Nodup :=
  (List.perm_insertionSort (fun a b => a ≤ b) ((tags.filter (fun t => t ≠ "")).dedup)).nodup_iff.mpr
    (List.nodup_dedup _)

/-- One processing step preserves the tag-table invariant. -/
theorem rb_process_tags_invariant (fetch : RbItem → FetchResult) (st : RbState) (item : RbItem)
    (hinv : rb_tags_invariant st) : rb_tags_invariant (rb_process_item fetch st item) := by
  obtain ⟨hK, hC, hW⟩ := hinv
  unfold rb_process_item
  by_cases h0 : item.id ∈ st.exist_ids
  · rw [if_pos h0]
    exact ⟨hK, hC, hW⟩
  · rw [if_neg h0]
    by_cases he : item.hash = "" ∨ item.image = ""
    · rw [if_pos he]
      exact ⟨hK, hC, hW⟩
    · rw [if_neg he]
      cases fetch item with
      | noUrl => exact ⟨hK, hC, hW⟩
      | netErr => exact ⟨hK, hC, hW⟩
      | ok url =>
        have hnames : (rb_item_tag_set item.tags).Nodup := rb_item_tag_set_nodup item.tags
        have hz : ∀ n ∈ rb_item_tag_set item.tags, n ∉ st.tags.map Prod.fst →
            rb_records_with_tag st.records n = 0 := by
          intro n _ hkn
          unfold rb_records_with_tag
          rw [List.length_eq_zero]
          rw [List.filter_eq_nil_iff]
          intro r hr
          simp only [decide_eq_true_eq]
          intro hmem
          exact hkn (hW r hr n hmem)
        obtain ⟨K2, V2, M2⟩ := rb_bump_tags_spec (rb_item_tag_set item.tags)
          (rb_records_with_tag st.records) st.tags hnames hK hC hz
        refine ⟨K2, ?_, ?_⟩
        · intro p hp
          have hv := V2 p hp
          have hcount : rb_records_with_tag
              (st.records ++ [{ id := item.id, tags := item.tags, url := url }]) p.1 =
              rb_records_with_tag st.records p.1 +
                (if p.1 ∈ rb_item_tag_set item.tags then 1 else 0) := by
            unfold rb_records_with_tag
            rw [List.filter_append, List.length_append]
            congr 1
            by_cases hmem : p.1 ∈ rb_item_tag_set item.tags
            · rw [if_pos hmem]
              simp [hmem]
            · rw [if_neg hmem]
              simp [hmem]
          rw [hcount]
          by_cases hmem : p.1 ∈ rb_item_tag_set item.tags
          · rw [if_pos hmem] at hv ⊢
            omega
          · rw [if_neg hmem] at hv ⊢
            omega
        · intro r hr
          rcases List.mem_append.mp hr with hl | hr2
          · intro t ht
            exact (M2 t).mpr (Or.inl (hW r hl t ht))
          · rcases List.mem_singleton.mp hr2 with rfl
            intro t ht
            exact (M2 t).mpr (Or.inr ht)

/-- The whole crawl loop preserves the tag-table invariant. -/
theorem rb_loop_tags_invariant (fetch : RbItem → FetchResult) (timeUp : ℕ → Bool) (m : ℕ) :
    ∀ (items : List RbItem) (st : RbState) (k : ℕ), rb_tags_invariant st →
      rb_tags_invariant (rb_crawl_loop fetch timeUp m st k items) := by
  intro items
  induction items with
  | nil =>
    intro st k h
    exact h
  | cons item rest ih =>
    intro st k h
    unfold rb_crawl_loop
    by_cases h1 : m ≤ st.cnt
    · rw [if_pos h1]
      exact h
    · rw [if_neg h1]
      by_cases h2 : timeUp k = true
      · rw [if_pos h2]
        exact h
      · rw [if_neg h2]
        exact ih _ _ (rb_process_tags_invariant fetch st item h)

/-- Occurrence-counting at skb export agrees with record-counting exactly
when each record's resolved tag list is duplicate-free. -/
theorem skb_analysis_eq_record_count (name : String) :
    ∀ artworks : List SkbArtwork, (∀ a ∈ artworks, a.tags.Nodup) →
      skb_tags_analysis artworks name =
        (artworks.filter (fun a => decide (name ∈ a.tags))).length := by
  intro artworks
  induction artworks with
  | nil =>
    intro _
    rfl
  | cons a rest ih =>
    intro h
    unfold skb_tags_analysis at ih ⊢
    simp only [List.map_cons, List.sum_cons]
    rw [ih (fun b hb => h b (List.mem_cons_of_mem _ hb))]
    by_cases hm : name ∈ a.tags
    · rw [List.count_eq_one_of_mem (h a (List.mem_cons_self _ _)) hm]
      simp [hm]
      omega
    · rw [List.count_eq_zero.mpr hm]
      simp [hm]

/-- C1: processing a fresh skb candidate whose media download raises a
transient `RequestException` still marks the suit id seen and still appends
an artwork row, while no file lands in the image directory (so the exported
record table references a file missing from the pack and the id will never
be retried). -/
theorem claim_skb_transient_download_marks_seen :
    skb_suit_id ("u", 1) ∈ skbStepDownloadFail.exist_sids
    ∧ skbStepDownloadFail.artworks =
        [{ item_id := 7, post_id := 1, filename := "c7", tags := ["cat", "cat"] }]
    ∧ skbStepDownloadFail.images = [] := by
  refine ⟨by decide, by decide, by decide⟩

/-- C3 counterexample: with the accumulated/available ratio exactly at the
threshold (99/100 for rb, 95/100 for bh) the tag is still sampled, so page
requests are still issued against it. -/
theorem claim_saturation_threshold_counterexample :
    rb_check_tags 99 100 = true ∧ bh_tag_reached_safe_limit 95 100 = false := by
  constructor
  · rw [rb_check_tags]
    norm_num
  · rw [bh_tag_reached_safe_limit]
    norm_num

/-- C3 amended: a tag is skipped (no further page requests are issued
against it) once its accumulated/available ratio STRICTLY exceeds the
configured threshold, or its accumulated count reaches the absolute cap. -/
theorem claim_saturation_strictly_above (c a c2 a2 : ℕ)
    (hrb : (c : ℚ) > (a : ℚ) * (99 / 100) ∨ 195000 ≤ c)
    (hbh : (c2 : ℚ) > (a2 : ℚ) * (95 / 100) ∨ 95000 ≤ c2) :
    rb_check_tags c a = false ∧ bh_tag_reached_safe_limit c2 a2 = true := by
  constructor
  · rw [rb_check_tags, if_pos hrb]
  · rw [bh_tag_reached_safe_limit, if_pos hbh]

/-- Witness for the amended C3 statement at one count above the thresholds. -/
theorem claim_saturation_strictly_above_witness :
    rb_check_tags 100 100 = false ∧ bh_tag_reached_safe_limit 96 100 = true :=
  claim_saturation_strictly_above 100 100 96 100 (by norm_num) (by norm_num)

/-- C4 counterexample: a present-but-malformed persisted DedupIndex makes
the load raise out of the crawl instead of yielding the empty set. -/
theorem claim_dedup_load_malformed_counterexample :
    rb_load_exist_ids (some (Except.error ())) = LoadOutcome.raised
    ∧ LoadOutcome.raised ≠ LoadOutcome.ok ∅ := by
  refine ⟨rfl, ?_⟩
  intro h
  exact LoadOutcome.noConfusion h

/-- C4 amended: a missing persisted form loads as the empty set (bootstrap
from nothing works), a parsed one as its id set, and a malformed one raises
out of the crawl function. -/
theorem claim_dedup_load_behaviour :
    rb_load_exist_ids none = LoadOutcome.ok ∅
    ∧ (∀ l : List ℕ, rb_load_exist_ids (some (Except.ok l)) = LoadOutcome.ok l.toFinset)
    ∧ rb_load_exist_ids (some (Except.error ())) = LoadOutcome.raised :=
  ⟨rfl, fun _ => rfl, rfl⟩

/-- C9 counterexample: on two curated tags of one type the source orders by
ascending id while the ordering claimed by the spec (descending count, then
name) orders them oppositely, so the exports differ. -/
theorem claim_tag_sort_counterexample :
    mhs_sort_tags [mhsTagA, mhsTagB] ≠ mhs_spec_sort_tags [mhsTagA, mhsTagB] := by
  have hAB : mhs_tag_le mhsTagA mhsTagB := by
    show mhs_tag_key mhsTagA ≤ mhs_tag_key mhsTagB
    rw [mhs_tag_key, mhs_tag_key]
    simp only [mhsTagA, mhsTagB]
    rw [if_neg (by decide), if_neg (by decide)]
    rw [Prod.Lex.le_iff]
    right
    refine ⟨rfl, ?_⟩
    rw [Prod.Lex.le_iff]
    right
    refine ⟨rfl, ?_⟩
    rw [Prod.Lex.le_iff]
    simp
  have hsAB : ¬ mhs_spec_tag_le mhsTagA mhsTagB := by
    show ¬ mhs_spec_tag_key mhsTagA ≤ mhs_spec_tag_key mhsTagB
    rw [mhs_spec_tag_key, mhs_spec_tag_key]
    simp only [mhsTagA, mhsTagB]
    rw [if_neg (by decide), if_neg (by decide)]
    intro hle
    rw [Prod.Lex.le_iff] at hle
    rcases hle with h | ⟨-, h⟩
    · exact lt_irrefl 0 h
    · rw [Prod.Lex.le_iff] at h
      rcases h with h | ⟨h, -⟩
      · norm_num at h
      · norm_num at h
  have h1 : mhs_sort_tags [mhsTagA, mhsTagB] = [mhsTagA, mhsTagB] := by
    show List.orderedInsert mhs_tag_le mhsTagA [mhsTagB] = [mhsTagA, mhsTagB]
    exact List.orderedInsert_of_le _ _ hAB
  have h2 : mhs_spec_sort_tags [mhsTagA, mhsTagB] = [mhsTagB, mhsTagA] := by
    show List.orderedInsert mhs_spec_tag_le mhsTagA [mhsTagB] = [mhsTagB, mhsTagA]
    simp only [List.orderedInsert]
    rw [if_neg hsAB]
  rw [h1, h2]
  decide

/-- C9 amended: at export the mihuashi tag table is sorted by the composite
key the source computes (custom tags after curated ones, curated by type
then ascending id, custom by descending count then ascending id), and the
skb and rb tag tables by descending count then ascending name; each export
is a sorted permutation of its table, reproduced deterministically. -/
theorem claim_tag_sort_actual_order :
    (∀ l : List MhsTag, (mhs_sort_tags l).Sorted mhs_tag_le ∧ List.Perm (mhs_sort_tags l) l)
    ∧ (∀ st : SkbState, (skb_export_tags st).Sorted count_name_le
        ∧ List.Perm (skb_export_tags st)
            (st.all_tags.map (fun n => (n, skb_tags_analysis st.artworks n))))
    ∧ (∀ st : RbState, (rb_export_tags st).Sorted count_name_le
        ∧ List.Perm (rb_export_tags st) st.tags) := by
  refine ⟨fun l => ⟨?_, ?_⟩, fun st => ⟨?_, ?_⟩, fun st => ⟨?_, ?_⟩⟩
  · exact List.sorted_insertionSort mhs_tag_le l
  · exact List.perm_insertionSort mhs_tag_le l
  · exact List.sorted_insertionSort count_name_le _
  · exact List.perm_insertionSort count_name_le _
  · exact List.sorted_insertionSort count_name_le _
  · exact List.perm_insertionSort count_name_le _

/-- C2: with a processed-count budget of five, the wall clock never firing
and an adequate supply of distinct never-seen candidates, both the rb and
the skb crawl loops process exactly five items before finalizing
(already-seen ids are skipped without touching the budget, which the
freshness hypotheses make irrelevant here). -/
theorem claim_budget_exactly_five
    (fetch : RbItem → FetchResult) (timeUp : ℕ → Bool)
    (st : RbState) (items : List RbItem) (k : ℕ)
    (getPost : String × ℕ → SkbPostInfo) (downloadOk : String → Bool) (timeUpS : ℕ → Bool)
    (sst : SkbState) (cands : List (String × ℕ)) (kS : ℕ)
    (htime : ∀ j, timeUp j = false)
    (hnet : ∀ i ∈ items, fetch i ≠ FetchResult.netErr)
    (hnodup : (items.map RbItem.id).Nodup)
    (hfresh : ∀ i ∈ items, i.id ∉ st.exist_ids)
    (hcnt : st.cnt = 0)
    (hlen : 5 ≤ items.length)
    (htimeS : ∀ j, timeUpS j = false)
    (hnodupS : (cands.map skb_suit_id).Nodup)
    (hfreshS : ∀ c ∈ cands, skb_suit_id c ∉ sst.exist_sids)
    (hcount : sst.count = 0)
    (hlenS : 5 ≤ cands.length) :
    ((rb_crawl_loop fetch timeUp 5 st k items).cnt = 5
      ∧ (skb_crawl_loop getPost downloadOk timeUpS 5 sst kS cands).count = 5)
    ∧ (∀ (st2 : RbState) (it2 : RbItem), it2.id ∈ st2.exist_ids →
        rb_process_item fetch st2 it2 = st2)
    ∧ (∀ (sst2 : SkbState) (k2 : ℕ) (cands2 : List (String × ℕ)),
        (∀ c ∈ cands2, skb_suit_id c ∈ sst2.exist_sids) →
        skb_crawl_loop getPost downloadOk timeUpS 5 sst2 k2 cands2 = sst2) := by
  refine ⟨⟨?_, ?_⟩, rb_process_seen fetch, ?_⟩
  · rw [rb_loop_cnt fetch timeUp 5 htime items st k hnet hnodup hfresh (by omega)]
    omega
  · rw [skb_loop_count getPost downloadOk timeUpS 5 htimeS cands sst kS hnodupS hfreshS (by omega)]
    omega
  · intro sst2 k2 cands2 hs
    exact skb_loop_all_seen getPost downloadOk timeUpS 5 cands2 sst2 k2 hs

/-- Witness for C2 on six distinct fresh candidates for each crawler. -/
theorem claim_budget_exactly_five_witness :
    (rb_crawl_loop (fun _ => FetchResult.ok "u") (fun _ => false) 5
        rbEmptyState 0 rbItemsSix).cnt = 5
    ∧ (skb_crawl_loop (fun _ => skbInfoDup) (fun _ => true) (fun _ => false) 5
        skbEmptyState 0 skbCandsSix).count = 5 :=
  (claim_budget_exactly_five (fun _ => FetchResult.ok "u") (fun _ => false)
    rbEmptyState rbItemsSix 0 (fun _ => skbInfoDup) (fun _ => true) (fun _ => false)
    skbEmptyState skbCandsSix 0
    (fun _ => rfl) (by decide) (by decide) (by decide) rfl (by decide)
    (fun _ => rfl) (by decide) (by decide) rfl (by decide)).1

/-- C5: a definitive-skip outcome marks the candidate id seen without
appending a record.  For rb an empty payload or a `NoURL` raise inserts the
id (which therefore appears in the exported DedupIndex) and leaves the
record table untouched; the dedup set only ever grows across the loop, and
an already-seen id is never reprocessed, so no record for it can be appended
later.  For mhs an HTTP 404 or 423 detail answer yields exactly the state
with the suit id inserted and the counter bumped, artworks untouched. -/
theorem claim_definitive_skip_marked_seen
    (fetch : RbItem → FetchResult) (st : RbState) (item : RbItem)
    (timeUp : ℕ → Bool) (m k : ℕ) (items : List RbItem)
    (mfetch : ℕ → MhsFetchResult) (mdl : String → Bool) (mst : MhsState) (item_id code : ℕ)
    (hfresh : item.id ∉ st.exist_ids)
    (hskip : item.hash = "" ∨ item.image = "" ∨ fetch item = FetchResult.noUrl)
    (hmfresh : mhs_suit_id item_id ∉ mst.exist_sids)
    (hmcode : mfetch item_id = MhsFetchResult.badStatus code)
    (hgone : code = 404 ∨ code = 423) :
    (item.id ∈ (rb_process_item fetch st item).exist_ids
      ∧ (rb_process_item fetch st item).records = st.records
      ∧ item.id ∈ rb_export_exist_ids (rb_process_item fetch st item))
    ∧ st.exist_ids ⊆ (rb_crawl_loop fetch timeUp m st k items).exist_ids
    ∧ (∀ st2 : RbState, ∀ it2 : RbItem, it2.id ∈ st2.exist_ids →
        rb_process_item fetch st2 it2 = st2)
    ∧ mhs_process_item mfetch mdl mst item_id =
        Except.ok { mst with exist_sids := insert (mhs_suit_id item_id) mst.exist_sids,
                             count := mst.count + 1 } := by
  have hrb : item.id ∈ (rb_process_item fetch st item).exist_ids
      ∧ (rb_process_item fetch st item).records = st.records := by
    unfold rb_process_item
    rw [if_neg hfresh]
    by_cases he : item.hash = "" ∨ item.image = ""
    · rw [if_pos he]
      exact ⟨Finset.mem_insert_self _ _, rfl⟩
    · rw [if_neg he]
      have hnu : fetch item = FetchResult.noUrl := by
        rcases hskip with h | h | h
        · exact absurd (Or.inl h) he
        · exact absurd (Or.inr h) he
        · exact h
      rw [hnu]
      exact ⟨Finset.mem_insert_self _ _, rfl⟩
  refine ⟨⟨hrb.1, hrb.2, (Finset.mem_sort _).mpr hrb.1⟩,
    rb_loop_exist_mono fetch timeUp m items st k, rb_process_seen fetch, ?_⟩
  rcases hgone with rfl | rfl
  · unfold mhs_process_item
    rw [if_neg hmfresh, hmcode]
    rfl
  · unfold mhs_process_item
    rw [if_neg hmfresh, hmcode]
    rfl

/-- Witness for C5 on an empty-payload rb item and a 404 mhs answer. -/
theorem claim_definitive_skip_marked_seen_witness :
    rbItemEmpty.id ∈
      (rb_process_item (fun _ => FetchResult.noUrl) rbEmptyState rbItemEmpty).exist_ids
    ∧ (rb_process_item (fun _ => FetchResult.noUrl) rbEmptyState rbItemEmpty).records =
        rbEmptyState.records
    ∧ rbItemEmpty.id ∈ rb_export_exist_ids
        (rb_process_item (fun _ => FetchResult.noUrl) rbEmptyState rbItemEmpty) :=
  (claim_definitive_skip_marked_seen (fun _ => FetchResult.noUrl) rbEmptyState rbItemEmpty
    (fun _ => false) 10 0 [] (fun _ => MhsFetchResult.badStatus 404) (fun _ => true)
    mhsEmptyState 3 404 (by decide) (Or.inl rfl) (by decide) rfl (Or.inl rfl)).1

/-- C6: the exported DedupIndex of a crawl run is ascending and
duplicate-free, and every record accumulated during the run (any final
record not already present at load) has its id in the export exactly once;
the skb exported sid list is likewise sorted and duplicate-free. -/
theorem claim_export_ids_sorted_unique
    (fetch : RbItem → FetchResult) (timeUp : ℕ → Bool) (m : ℕ)
    (st : RbState) (k : ℕ) (items : List RbItem) :
    (rb_export_exist_ids (rb_crawl_loop fetch timeUp m st k items)).Sorted (fun a b => a ≤ b)
    ∧ (rb_export_exist_ids (rb_crawl_loop fetch timeUp m st k items)).Nodup
    ∧ (∀ r ∈ (rb_crawl_loop fetch timeUp m st k items).records,
        r ∈ st.records ∨
          (rb_export_exist_ids (rb_crawl_loop fetch timeUp m st k items)).count r.id = 1)
    ∧ (∀ sst : SkbState, (skb_export_exist_sids sst).Sorted (fun a b => a ≤ b)
        ∧ (skb_export_exist_sids sst).Nodup) := by
  refine ⟨Finset.sort_sorted _ _, Finset.sort_nodup _ _, ?_,
    fun sst => ⟨Finset.sort_sorted _ _, Finset.sort_nodup _ _⟩⟩
  intro r hr
  rcases rb_loop_records_tracked fetch timeUp m items st k r hr with h | h
  · exact Or.inl h
  · exact Or.inr (List.count_eq_one_of_mem (Finset.sort_nodup _ _) ((Finset.mem_sort _).mpr h))

/-- Witness for C6: the record of item 1 is accumulated and its id counted
once in the export. -/
theorem claim_export_ids_sorted_unique_witness :
    ({ id := 1, tags := ["a"], url := "u" } : RbRecord) ∈ rbEmptyState.records
    ∨ (rb_export_exist_ids (rb_crawl_loop (fun _ => FetchResult.ok "u") (fun _ => false) 10
        rbEmptyState 0 rbItemsSix)).count 1 = 1 :=
  (claim_export_ids_sorted_unique (fun _ => FetchResult.ok "u") (fun _ => false) 10
    rbEmptyState 0 rbItemsSix).2.2.1 { id := 1, tags := ["a"], url := "u" } (by decide)

/-- C7: a run that produced no media files returns before the export step:
no pack is built and the persisted store (DedupIndex included) is left
exactly as it was; in particular a second run over candidates that are all
already seen leaves the whole in-memory state untouched and is a no-op. -/
theorem claim_no_media_no_export
    (getPost : String × ℕ → SkbPostInfo) (downloadOk : String → Bool) (timeUp : ℕ → Bool)
    (m : ℕ) (st : SkbState) (k : ℕ) (cands : List (String × ℕ))
    (packName : String) (consumed : ℕ) (old : SkbPersisted)
    (himg : st.images = [])
    (hseen : ∀ c ∈ cands, skb_suit_id c ∈ st.exist_sids) :
    (∀ s : SkbState, s.images = [] → skb_finalize packName consumed s = none)
    ∧ skb_crawl_loop getPost downloadOk timeUp m st k cands = st
    ∧ skb_finalize packName consumed (skb_crawl_loop getPost downloadOk timeUp m st k cands) = none
    ∧ skb_persisted_after old (skb_finalize packName consumed
        (skb_crawl_loop getPost downloadOk timeUp m st k cands)) = old := by
  have hfin : ∀ s : SkbState, s.images = [] → skb_finalize packName consumed s = none := by
    intro s hs
    simp [skb_finalize, hs]
  have hloop := skb_loop_all_seen getPost downloadOk timeUp m cands st k hseen
  refine ⟨hfin, hloop, ?_, ?_⟩
  · rw [hloop]
    exact hfin st himg
  · rw [hloop, hfin st himg]
    rfl

/-- Witness for C7: a seen-everything, no-image run leaves the persisted
store untouched. -/
theorem claim_no_media_no_export_witness :
    skb_persisted_after skbOldPersisted (skb_finalize "p" 0
      (skb_crawl_loop (fun _ => skbInfoDup) (fun _ => true) (fun _ => false) 5
        skbSeenState 0 [("u", 1)])) = skbOldPersisted :=
  (claim_no_media_no_export (fun _ => skbInfoDup) (fun _ => true) (fun _ => false) 5
    skbSeenState 0 [("u", 1)] "p" 0 skbOldPersisted rfl (by decide)).2.2.2

/-- C8 counterexample: one accumulated artwork whose case-duplicated tag
list resolved to the same canonical name twice exports that tag with count
2, while exactly one accumulated record's tag-set contains the name. -/
theorem claim_tag_count_occurrences_counterexample :
    ("cat", 2) ∈ skb_export_tags skbStepDup
    ∧ (skbStepDup.artworks.filter (fun a => decide ("cat" ∈ a.tags))).length = 1 := by
  refine ⟨by decide, by decide⟩

/-- C8 amended: after a crawl run every entry of the exported rb tag table
counts exactly the accumulated records whose resolved tag-set contains its
name (given the loaded table already satisfied this invariant, as the empty
bootstrap table does); for skb the exported count is the number of tag
OCCURRENCES across accumulated artworks, which equals the number of
artworks containing the name whenever each artwork's resolved tag list is
duplicate-free. -/
theorem claim_tag_counts_amended
    (fetch : RbItem → FetchResult) (timeUp : ℕ → Bool) (m : ℕ)
    (items : List RbItem) (st : RbState) (k : ℕ)
    (sst : SkbState)
    (hinv : rb_tags_invariant st)
    (hnd : ∀ a ∈ sst.artworks, a.tags.Nodup) :
    (∀ p ∈ rb_export_tags (rb_crawl_loop fetch timeUp m st k items),
        p.2 = rb_records_with_tag (rb_crawl_loop fetch timeUp m st k items).records p.1)
    ∧ (∀ p ∈ skb_export_tags sst,
        p.2 = (sst.artworks.filter (fun a => decide (p.1 ∈ a.tags))).length) := by
  constructor
  · intro p hp
    have hfin := rb_loop_tags_invariant fetch timeUp m items st k hinv
    have hp2 : p ∈ (rb_crawl_loop fetch timeUp m st k items).tags :=
      (List.mem_insertionSort count_name_le).mp hp
    exact hfin.2.1 p hp2
  · intro p hp
    have hp2 : p ∈ sst.all_tags.map (fun n => (n, skb_tags_analysis sst.artworks n)) :=
      (List.mem_insertionSort count_name_le).mp hp
    rcases List.mem_map.mp hp2 with ⟨n, hn, rfl⟩
    exact skb_analysis_eq_record_count n sst.artworks hnd

/-- Witness for the amended C8 on a two-record single-tag run from the empty
bootstrap state. -/
theorem claim_tag_counts_amended_witness :
    (("a", 2) : String × ℕ).2 = rb_records_with_tag
      (rb_crawl_loop (fun _ => FetchResult.ok "u") (fun _ => false) 10
        rbEmptyState 0 rbItemsTwoA).records ("a", 2).1 :=
  (claim_tag_counts_amended (fun _ => FetchResult.ok "u") (fun _ => false) 10
    rbItemsTwoA rbEmptyState 0 skbEmptyState (by decide) (by decide)).1 ("a", 2) (by decide)

/-- C10: with `use_random=False` the candidate loop iterates over the
one-element tuple containing the page generator and unpacks the generator
object itself; whatever (username, post_id) pairs the page yields, no bound
candidate is ever such a pair — either the unpack raises (yield count other
than two) or it binds the two yielded pairs themselves. -/
theorem claim_norandom_source_misbinds (pageYields : List PyVal)
    (hpairs : ∀ v ∈ pageYields, ∃ u p, v = PyVal.pyPair (PyVal.pyStr u) (PyVal.pyInt p)) :
    ∀ c ∈ skb_norandom_candidates pageYields, ∀ u p,
      c ≠ (PyVal.pyStr u, PyVal.pyInt p) := by
  intro c hc u p heq
  cases pageYields with
  | nil => exact absurd hc (List.not_mem_nil c)
  | cons a tl =>
    cases tl with
    | nil => exact absurd hc (List.not_mem_nil c)
    | cons b tl2 =>
      cases tl2 with
      | cons d tl3 => exact absurd hc (List.not_mem_nil c)
      | nil =>
        have hc2 : c = (a, b) := List.mem_singleton.mp hc
        rcases hpairs a (List.mem_cons_self _ _) with ⟨u2, p2, ha⟩
        rw [hc2] at heq
        have hfst : a = PyVal.pyStr u := congrArg Prod.fst heq
        rw [ha] at hfst
        exact PyVal.noConfusion hfst

/-- Witness for C10: with two proper pairs yielded, the single bound
candidate is the pair of pairs, not a (username, post_id) pair. -/
theorem claim_norandom_source_misbinds_witness :
    ((PyVal.pyPair (PyVal.pyStr "u") (PyVal.pyInt 1),
      PyVal.pyPair (PyVal.pyStr "v") (PyVal.pyInt 2)) : PyVal × PyVal) ≠
      (PyVal.pyStr "x", PyVal.pyInt 9) :=
  claim_norandom_source_misbinds skbPagePairs
    (by
      intro v hv
      rcases List.mem_cons.mp hv with rfl | hv2
      · exact ⟨"u", 1, rfl⟩
      · rcases List.mem_cons.mp hv2 with rfl | hv3
        · exact ⟨"v", 2, rfl⟩
        · exact absurd hv3 (List.not_mem_nil v))
    (PyVal.pyPair (PyVal.pyStr "u") (PyVal.pyInt 1),
      PyVal.pyPair (PyVal.pyStr "v") (PyVal.pyInt 2))
    (List.mem_singleton.mpr rfl) "x" 9
